import Mathlib

/-!
Verification of the solid-i18n library (src/src/solid-i18n.tsx).

The JavaScript value universe is embedded as the inductive `JSVal`.
Function values (translation leaves may be callables) are represented by
`vFunId n`, an index into an external environment `funs : Nat → JSVal → JSVal`,
so that `JSVal` stays a first-order inductive with decidable equality.
Numbers are modelled as integers (no claim involves fractional values or NaN).
Objects are modelled by their own enumerable string-keyed properties, as an
association list; prototype-chain lookups are not modelled.  Property access
on a primitive string is modelled faithfully to JavaScript's string wrapper
objects: the own properties are `length` and the canonical integer indices.
Own properties of function objects (`length`, `name`) are not carried by
`vFunId`; no claim exercises property access on a function value.
-/

inductive JSVal where
  | vUndef : JSVal
  | vNull : JSVal
  | vBool : Bool → JSVal
  | vNum : Int → JSVal
  | vStr : String → JSVal
  | vObj : List (String × JSVal) → JSVal
  | vFunId : Nat → JSVal

/-- Test for the value `undefined` (the `value !== undefined` check). -/
def isUndef : JSVal → Bool
  | .vUndef => true
  | _ => false

/-- JavaScript truthiness for the embedded values: `undefined`, `null`,
`false`, `0` and the empty string are falsy, everything else is truthy. -/
def jsTruthy : JSVal → Bool
  | .vUndef => false
  | .vNull => false
  | .vBool b => b
  | .vNum n => decide (n ≠ 0)
  | .vStr s => decide (s ≠ "")
  | .vObj _ => true
  | .vFunId _ => true

/-- JavaScript `a || b`. -/
def jsOr (a b : JSVal) : JSVal :=
  if jsTruthy a then a else b

/-- JavaScript `a ?? b` (nullish coalescing), used to state claims phrased
with `??`; the source itself uses `||`. -/
def jsNullish (a b : JSVal) : JSVal :=
  match a with
  | .vUndef => b
  | .vNull => b
  | v => v

/-- Lookup of an own property in an association-list object. -/
def lookupKey : List (String × JSVal) → String → Option JSVal
  | [], _ => none
  | (k, v) :: rest, q => if k = q then some v else lookupKey rest q

/-- The numeric value of a decimal digit character. -/
def charDigit (c : Char) : Option Nat :=
  if '0' ≤ c ∧ c ≤ '9' then some (c.toNat - '0'.toNat) else none

/-- Fold a run of decimal digits into a number; `none` on a non-digit. -/
def digitsVal : List Char → Nat → Option Nat
  | [], acc => some acc
  | c :: rest, acc =>
    match charDigit c with
    | some d => digitsVal rest (acc * 10 + d)
    | none => none

/-- The canonical integer index denoted by a property key, if any:
`"0"`, `"1"`, ... but not `"01"` or `" 1"` (JavaScript array-index keys:
all digits, no leading zero except `"0"` itself). -/
def canonicalIndex (k : String) : Option Nat :=
  match k.data with
  | [] => none
  | c :: rest =>
    if c = '0' ∧ rest ≠ [] then none else digitsVal (c :: rest) 0

/-- JavaScript property access `a[k]` restricted to own properties:
objects look up their association list; a string exposes `length` and its
canonical character indices (the wrapper object's own properties); every
other base yields `undefined`. -/
def getProp (a : JSVal) (k : String) : JSVal :=
  match a with
  | .vObj fs =>
    match lookupKey fs k with
    | some v => v
    | none => .vUndef
  | .vStr s =>
    if k = "length" then .vNum (s.length : Int)
    else
      match canonicalIndex k with
      | some i =>
        match s.data.drop i with
        | c :: _ => .vStr (String.mk [c])
        | [] => .vUndef
      | none => .vUndef
  | _ => (.vUndef)

/-- One step of the reduction in `deepReadObject`:
`(a, b) => (a ? a[b] : undefined)`. -/
def stepRead (a : JSVal) (b : String) : JSVal :=
  if jsTruthy a then getProp a b else (.vUndef)

/-- Whitespace removed by `String.prototype.trim` (the ASCII portion; the
claims involve no exotic Unicode whitespace). -/
def isJSWhite (c : Char) : Bool :=
  c = ' ' || c = '\t' || c = '\n' || c = '\r' || c = '\x0b' || c = '\x0c'

/-- `path.trim()`: remove leading and trailing whitespace. -/
def trimChars (l : List Char) : List Char :=
  ((l.dropWhile isJSWhite).reverse.dropWhile isJSWhite).reverse

/-- `str.split('.')` on a character list: splitting the empty string gives
one empty segment, consecutive dots give empty segments. -/
def splitDots : List Char → List (List Char)
  | [] => [[]]
  | c :: rest =>
    if c = '.' then [] :: splitDots rest
    else
      match splitDots rest with
      | seg :: segs => (c :: seg) :: segs
      | [] => [[c]]

/-- `path.trim().split('.')` as strings. -/
def pathSegs (path : String) : List String :=
  (splitDots (trimChars path.data)).map String.mk

/-- The reduce in `deepReadObject`:
`path.trim().split('.').reduce((a, b) => (a ? a[b] : undefined), obj)`. -/
def deepRead (obj : JSVal) (path : String) : JSVal :=
  (pathSegs path).foldl stepRead obj

/-- `deepReadObject(obj, path, defaultValue)` from the source:
the reduced value when it is not `undefined`, else `defaultValue`.
A call that omits `defaultValue` passes `.vUndef` here. -/
def deepReadObject (obj : JSVal) (path : String) (defaultValue : JSVal) : JSVal :=
  let value := deepRead obj path
  if isUndef value then defaultValue else value

/-- JavaScript `String(v)` conversion, applied by `String.prototype.replace`
to the value returned by the replacer callback.  Converting a function value
yields its source text in JavaScript, which the environment-index
representation cannot carry; the marker `"function"` stands for it (no claim
interpolates a function value). -/
def toJSString : JSVal → String
  | .vUndef => "undefined"
  | .vNull => "null"
  | .vBool true => "true"
  | .vBool false => "false"
  | .vNum n => toString n
  | .vStr s => s
  | .vObj _ => "[object Object]"
  | .vFunId _ => "function"

/-- Is this character excluded by `.` in a JavaScript regular expression
(line terminators)? -/
def isLineTerm (c : Char) : Bool :=
  c = '\n' || c = '\r' || c = '\u2028' || c = '\u2029'

/-- Search for the lazy match of `(.*?)}}` in the default pattern
`/{{(.*?)}}/g`: scanning left to right, stop at the first `}}`; fail when a
line terminator (not matched by `.`) or the end of input is reached first.
Returns the captured characters together with the total number of characters
consumed (capture plus the two closing braces). -/
def findClose : List Char → Option (List Char × Nat)
  | [] => none
  | [_] => none
  | c1 :: c2 :: rest =>
    if c1 = '}' ∧ c2 = '}' then some ([], 2)
    else if isLineTerm c1 then none
    else (findClose (c2 :: rest)).map (fun p => (c1 :: p.1, p.2 + 1))

/-- Character-level model of
`str.replace(/{{(.*?)}}/g, (_, key) => deepReadObject(params, key, ''))`:
at each position, if `{{` begins a full match the replacement is substituted
and scanning resumes after the match; otherwise one character is emitted
literally (the regex engine advancing its starting position). -/
def templateAux (params : JSVal) : Nat → List Char → List Char
  | 0, l => l
  | _ + 1, [] => []
  | _ + 1, [c] => [c]
  | fuel + 1, c1 :: c2 :: rest =>
    if c1 = '{' ∧ c2 = '{' then
      match findClose rest with
      | some (cap, n) =>
        (toJSString (deepReadObject params (String.mk cap) (.vStr ""))).data
          ++ templateAux params fuel (rest.drop n)
      | none => c1 :: templateAux params fuel (c2 :: rest)
    else c1 :: templateAux params fuel (c2 :: rest)

/-- The scan with enough fuel to finish: every step consumes at least one
input character and one unit of fuel, so fuel equal to the input length is
never exhausted and the fuel parameter is irrelevant (`templateAux_fuel`). -/
def templateChars (params : JSVal) (l : List Char) : List Char :=
  templateAux params l.length l

/-- `template(str, params)` from the source, with the default pattern
`/{{(.*?)}}/g` (the optional pattern argument is never overridden by the
library itself). -/
def template (str : String) (params : JSVal) : String :=
  String.mk (templateChars params str.data)

/-- The store behind `createI18nContext`: the `locale` signal and the `dict`
state.  The dictionary state object is an association list from locale codes
to tables. -/
structure I18nState where
  currentLocale : String
  dict : List (String × JSVal)

/-- Function `translate(key, params, defaultValue)` from the source, named
`translateFn` here because Mathlib already declares `translate`.  `funs` is the
environment interpreting `vFunId` indices as JavaScript functions; `params`
is `.vUndef` when the argument is omitted, and likewise `defaultValue`. -/
def translateFn (funs : Nat → JSVal → JSVal) (st : I18nState) (key : String)
    (params : JSVal) (defaultValue : JSVal) : JSVal :=
  let val := deepReadObject (getProp (.vObj st.dict) st.currentLocale) key
    (jsOr defaultValue (.vStr ""))
  match val with
  | .vFunId n => funs n params
  | .vStr s => .vStr (template s (jsOr params (.vObj [])))
  | v => v

/-- `translateFn` with the callable branch allowed to act on the store: a
dictionary leaf that is a function could read or mutate the state when
invoked, so the effectful environment maps an index and the parameters to a
state transformer.  The other branches only read the state. -/
def translateEff (funsE : Nat → JSVal → I18nState → I18nState × JSVal)
    (st : I18nState) (key : String) (params : JSVal) (defaultValue : JSVal) :
    I18nState × JSVal :=
  let val := deepReadObject (getProp (.vObj st.dict) st.currentLocale) key
    (jsOr defaultValue (.vStr ""))
  match val with
  | .vFunId n => funsE n params st
  | .vStr s => (st, .vStr (template s (jsOr params (.vObj []))))
  | v => (st, v)

/-- JavaScript property assignment `target[k] = v` on an association-list
object: an existing key keeps its position and gets the new value, a fresh
key is appended. -/
def setKey : List (String × JSVal) → String → JSVal → List (String × JSVal)
  | [], k, v => [(k, v)]
  | (k0, v0) :: rest, k, v =>
    if k0 = k then (k, v) :: rest else (k0, v0) :: setKey rest k v

/-- `Object.assign(t, table)`: each own enumerable property of `table` is
assigned onto `t` in order. -/
def objAssign (t : List (String × JSVal)) (src : List (String × JSVal)) :
    List (String × JSVal) :=
  src.foldl (fun acc kv => setKey acc kv.1 kv.2) t

/-- Own fields of an object value; `Object.assign` with a primitive target
(the existing entry for a locale being a truthy non-object) is outside the
modelled well-formed states, per the spec `add` with a non-object is
undefined behaviour. -/
def toFields : JSVal → List (String × JSVal)
  | .vObj fs => fs
  | _ => []

/-- `add(lang, table)` from the source:
`setDict(lang, (t) => Object.assign(t || \x7b\x7d, table))` — the entry for
`lang` becomes the old table (or a fresh empty object) with `table`'s keys
assigned onto it. -/
def addAction (st : I18nState) (lang : String) (table : List (String × JSVal)) :
    I18nState :=
  let t := getProp (.vObj st.dict) lang
  I18nState.mk st.currentLocale
    (setKey st.dict lang (.vObj (objAssign (toFields (jsOr t (.vObj []))) table)))

/-- `locale: (lang?) => (lang ? setLocale(lang) : locale())` from the source:
a truthy argument sets the signal and returns the new value, otherwise the
current value is read.  `none` models an omitted argument. -/
def localeAction (st : I18nState) (lang : Option String) : I18nState × String :=
  match lang with
  | some l => if l = "" then (st, st.currentLocale) else (I18nState.mk l st.dict, l)
  | none => (st, st.currentLocale)

/-- `dict: (lang) => deepReadObject(dict, lang)` from the source (the
default value argument is omitted, hence `undefined`). -/
def dictAction (st : I18nState) (lang : String) : JSVal :=
  deepReadObject (.vObj st.dict) lang .vUndef

mutual

/-- No function value occurs anywhere in this value (the hypothesis of the
frame claim about `translateFn`). -/
def noFunVal : JSVal → Bool
  | .vFunId _ => false
  | .vObj fs => noFunFields fs
  | _ => true

/-- No function value occurs in any field of this association list. -/
def noFunFields : List (String × JSVal) → Bool
  | [] => true
  | (_, v) :: rest => noFunVal v && noFunFields rest

end

/-! Helper lemmas about the deep path reader. -/

theorem stepRead_of_falsy (a : JSVal) (s : String) (h : jsTruthy a = false) :
    stepRead a s = .vUndef := by
  simp [stepRead, h]

theorem stepRead_of_truthy (a : JSVal) (s : String) (h : jsTruthy a = true) :
    stepRead a s = getProp a s := by
  simp [stepRead, h]

theorem foldl_stepRead_undef : ∀ l : List String,
    List.foldl stepRead .vUndef l = .vUndef
  | [] => rfl
  | s :: rest => by
    rw [List.foldl_cons, stepRead_of_falsy .vUndef s rfl]
    exact foldl_stepRead_undef rest

theorem foldl_stepRead_falsy (a : JSVal) (h : jsTruthy a = false) :
    ∀ l : List String, l ≠ [] → List.foldl stepRead a l = .vUndef
  | [], hn => absurd rfl hn
  | s :: rest, _ => by
    rw [List.foldl_cons, stepRead_of_falsy a s h]
    exact foldl_stepRead_undef rest

theorem splitDots_ne_nil : ∀ l : List Char, splitDots l ≠ []
  | [] => by simp [splitDots]
  | c :: rest => by
    simp only [splitDots]
    split
    · simp
    · split
      · simp
      · simp

theorem pathSegs_ne_nil (path : String) : pathSegs path ≠ [] := by
  unfold pathSegs
  intro h
  exact splitDots_ne_nil _ (List.map_eq_nil_iff.mp h)

theorem deepReadObject_of_undef {obj : JSVal} {path : String} {d : JSVal}
    (h : deepRead obj path = .vUndef) : deepReadObject obj path d = d := by
  simp [deepReadObject, h, isUndef]

theorem deepReadObject_of_def {obj : JSVal} {path : String} {d : JSVal}
    (h : deepRead obj path ≠ .vUndef) :
    deepReadObject obj path d = deepRead obj path := by
  unfold deepReadObject
  cases hv : deepRead obj path <;> simp_all [isUndef]

/-- Claim C5: the deep path reader satisfies the concrete examples from the
spec: reading `a.b.c` in a nested table yields the leaf, reading a missing
`a.b.d` yields `undefined`, and the same read with default `'fallback'`
yields the default. -/
theorem claim_C5 :
    deepReadObject (.vObj [("a", .vObj [("b", .vObj [("c", .vStr "hello")])])])
      "a.b.c" .vUndef = .vStr "hello"
    ∧ deepReadObject (.vObj [("a", .vObj [("b", .vObj [("c", .vStr "hello")])])])
      "a.b.d" .vUndef = .vUndef
    ∧ deepReadObject (.vObj [("a", .vObj [("b", .vObj [("c", .vStr "hello")])])])
      "a.b.d" (.vStr "fallback") = .vStr "fallback" :=
  ⟨rfl, rfl, rfl⟩

/-- Claim C7: resolution walks the trimmed dot-split segments left to right
by a fold of the step function; the step short-circuits to `undefined` on a
falsy current value and is plain property access on a truthy one; once the
walk is at `undefined` it stays there; the default is returned exactly when
the final value is `undefined`, any other final value — including the
falsy-but-defined `0`, `''`, `false` and `null` — is returned verbatim. -/
theorem claim_C7 (obj : JSVal) (path : String) (d : JSVal) :
    deepRead obj path = (pathSegs path).foldl stepRead obj
    ∧ (∀ a s, jsTruthy a = false → stepRead a s = .vUndef)
    ∧ (∀ a s, jsTruthy a = true → stepRead a s = getProp a s)
    ∧ (∀ l, List.foldl stepRead .vUndef l = .vUndef)
    ∧ (deepRead obj path = .vUndef → deepReadObject obj path d = d)
    ∧ (deepRead obj path ≠ .vUndef → deepReadObject obj path d = deepRead obj path)
    ∧ deepReadObject (.vObj [("k", .vNum 0)]) "k" d = .vNum 0
    ∧ deepReadObject (.vObj [("k", .vStr "")]) "k" d = .vStr ""
    ∧ deepReadObject (.vObj [("k", .vBool false)]) "k" d = .vBool false
    ∧ deepReadObject (.vObj [("k", .vNull)]) "k" d = .vNull := by
  refine ⟨rfl, ?_, ?_, foldl_stepRead_undef, ?_, ?_, rfl, rfl, rfl, rfl⟩
  · intro a s h
    exact stepRead_of_falsy a s h
  · intro a s h
    exact stepRead_of_truthy a s h
  · intro h
    exact deepReadObject_of_undef h
  · intro h
    exact deepReadObject_of_def h

/-- Witness for claim C7 at a concrete input: resolving a missing key yields
the default, resolving a present key yields the stored value verbatim. -/
theorem claim_C7_witness :
    deepReadObject (.vObj [("a", .vStr "x")]) "b" (.vStr "fb") = .vStr "fb"
    ∧ deepReadObject (.vObj [("a", .vStr "x")]) "a" (.vStr "fb") = .vStr "x" := by
  constructor
  · exact (claim_C7 (.vObj [("a", .vStr "x")]) "b" (.vStr "fb")).2.2.2.2.1 rfl
  · exact ((claim_C7 (.vObj [("a", .vStr "x")]) "a" (.vStr "fb")).2.2.2.2.2.1
      (fun h => JSVal.noConfusion h)).trans rfl

/-- Claim C2 (amended): the deep path read is a total function — a falsy
starting value (in particular a current locale absent from the dictionary),
a missing key at any step, and more generally any prefix of the walk that
reaches `undefined` degrade the resolution to `undefined`, so the operation
yields `defaultValue`, and `translate` with no default yields the empty
string.  (The original claim further asserted that empty path segments and
non-object intermediate values always degrade to `undefined`; the
counterexample shows a table with an empty-string key resolving an empty
segment to a defined value.) -/
theorem claim_C2 (obj : JSVal) (path : String) (d : JSVal) :
    (deepRead obj path = .vUndef → deepReadObject obj path d = d)
    ∧ (jsTruthy obj = false → deepReadObject obj path d = d)
    ∧ (∀ l1 l2, pathSegs path = l1 ++ l2 → List.foldl stepRead obj l1 = .vUndef →
        deepReadObject obj path d = d)
    ∧ (∀ funs st key params,
        deepRead (getProp (.vObj st.dict) st.currentLocale) key = .vUndef →
        translateFn funs st key params .vUndef = .vStr "") := by
  refine ⟨fun h => deepReadObject_of_undef h, ?_, ?_, ?_⟩
  · intro h
    exact deepReadObject_of_undef
      (foldl_stepRead_falsy obj h (pathSegs path) (pathSegs_ne_nil path))
  · intro l1 l2 hsplit hpre
    apply deepReadObject_of_undef
    unfold deepRead
    rw [hsplit, List.foldl_append, hpre]
    exact foldl_stepRead_undef l2
  · intro funs st key params h
    have hval : deepReadObject (getProp (.vObj st.dict) st.currentLocale) key
        (jsOr .vUndef (.vStr "")) = .vStr "" := deepReadObject_of_undef h
    unfold translateFn
    rw [hval]
    rfl

/-- Witness for claim C2 at concrete inputs: a locale missing from the
dictionary makes the lookup fall back to the default, and `translate` with
no default returns the empty string. -/
theorem claim_C2_witness :
    deepReadObject (getProp (.vObj [("en", .vObj [("title", .vStr "T")])]) "fr")
      "title" (.vStr "fb") = .vStr "fb"
    ∧ translateFn (fun _ _ => .vUndef)
      (I18nState.mk "fr" [("en", .vObj [("title", .vStr "T")])])
      "title" .vUndef .vUndef = .vStr "" := by
  constructor
  · exact (claim_C2 (getProp (.vObj [("en", .vObj [("title", .vStr "T")])]) "fr")
      "title" (.vStr "fb")).2.1 rfl
  · exact (claim_C2 (.vUndef) "" .vUndef).2.2.2 (fun _ _ => .vUndef)
      (I18nState.mk "fr" [("en", .vObj [("title", .vStr "T")])])
      "title" .vUndef rfl

/-- Counterexample to claim C2 as stated: an empty path segment does not
always degrade the resolution to `undefined`.  With a table owning an
empty-string key, the path `'.b'` (leading dot, hence an empty first
segment) resolves to the stored value `'v'`, not to the default
`'fb'` — `('.b').trim().split('.')` is `['', 'b']`, and
`(\x7b '': \x7b b: 'v' \x7d \x7d)['']['b']` is defined. -/
theorem claim_C2_counterexample :
    deepReadObject (.vObj [("", .vObj [("b", .vStr "v")])]) ".b" (.vStr "fb")
      = .vStr "v"
    ∧ JSVal.vStr "v" ≠ JSVal.vStr "fb" :=
  ⟨rfl, fun h => absurd (JSVal.vStr.inj h) (by decide)⟩

/-- Claim C10: only the whole path is trimmed before splitting on dots, so
whitespace adjacent to interior dots stays part of the segment names:
`' user .name '` splits into `['user ', 'name']`, the placeholder
`'\x7b\x7b user .name \x7d\x7d'` resolves against the key `'user '` and
yields the empty string even though `params` has a `user` entry with a
`name` field, while the placeholder without interior whitespace resolves
to `'Tom'`. -/
theorem claim_C10 :
    pathSegs " user .name " = ["user ", "name"]
    ∧ template "\x7b\x7b user .name \x7d\x7d"
        (.vObj [("user", .vObj [("name", .vStr "Tom")])]) = ""
    ∧ deepReadObject (.vObj [("user", .vObj [("name", .vStr "Tom")])])
        " user .name " .vUndef = .vUndef
    ∧ template "\x7b\x7b user.name \x7d\x7d"
        (.vObj [("user", .vObj [("name", .vStr "Tom")])]) = "Tom" :=
  ⟨by decide, rfl, rfl, rfl⟩

/-- Claim C8: `dict(locale)` is the deep path read of `locale` rooted at the
whole dictionary with no default; a single-segment locale absent from the
dictionary yields `undefined`, and a dotted argument resolves through the
nested tables. -/
theorem claim_C8 (st : I18nState) (lang : String) :
    dictAction st lang = deepReadObject (.vObj st.dict) lang .vUndef
    ∧ (pathSegs lang = [lang] → lookupKey st.dict lang = none →
        dictAction st lang = .vUndef)
    ∧ dictAction (I18nState.mk "en" [("en", .vObj [("title", .vStr "T")])])
        "en.title" = .vStr "T"
    ∧ dictAction (I18nState.mk "en" []) "de" = .vUndef := by
  refine ⟨rfl, ?_, rfl, rfl⟩
  intro hseg hmiss
  unfold dictAction
  apply deepReadObject_of_undef
  unfold deepRead
  rw [hseg, List.foldl_cons, stepRead_of_truthy (.vObj st.dict) lang rfl]
  simp [getProp, hmiss, List.foldl_nil]

/-- Witness for claim C8 at a concrete input: an unknown locale resolves to
`undefined`. -/
theorem claim_C8_witness :
    dictAction (I18nState.mk "x" [("en", .vObj [])]) "de" = .vUndef :=
  (claim_C8 (I18nState.mk "x" [("en", .vObj [])]) "de").2.1 rfl rfl

/-- Claim C6: `locale(x)` with a truthy `x` sets the current locale to `x`
and returns the new value; `locale()` with no argument never mutates the
state and returns the current value; hence after a set, an argument-less
read returns the value just set. -/
theorem claim_C6 (st : I18nState) (l : String) (h : l ≠ "") :
    localeAction st (some l) = (I18nState.mk l st.dict, l)
    ∧ (∀ st2, localeAction st2 none = (st2, st2.currentLocale))
    ∧ (localeAction (localeAction st (some l)).1 none).2 = l := by
  refine ⟨?_, fun st2 => rfl, ?_⟩
  · simp [localeAction, h]
  · simp [localeAction, h]

/-- Witness for claim C6 at a concrete input: setting the locale to `'sw'`
updates the state, returns `'sw'`, and a subsequent argument-less read
returns `'sw'`. -/
theorem claim_C6_witness :
    localeAction (I18nState.mk "en" []) (some "sw") = (I18nState.mk "sw" [], "sw")
    ∧ (localeAction (localeAction (I18nState.mk "en" []) (some "sw")).1 none).2
      = "sw" := by
  constructor
  · exact (claim_C6 (I18nState.mk "en" []) "sw" (by decide)).1
  · exact (claim_C6 (I18nState.mk "en" []) "sw" (by decide)).2.2

/-! Helper lemmas about the template interpolator. -/

theorem templateAux_nil (params : JSVal) : ∀ f, templateAux params f [] = []
  | 0 => rfl
  | _ + 1 => rfl

theorem templateAux_single (params : JSVal) (c : Char) :
    ∀ f, templateAux params f [c] = [c]
  | 0 => rfl
  | _ + 1 => rfl

theorem templateAux_fuel (params : JSVal) :
    ∀ N : Nat, ∀ l : List Char, ∀ f g : Nat, l.length ≤ N →
    l.length ≤ f → l.length ≤ g →
    templateAux params f l = templateAux params g l := by
  intro N
  induction N with
  | zero =>
    intro l f g hN _ _
    have : l = [] := List.length_eq_zero.mp (Nat.le_zero.mp hN)
    subst this
    rw [templateAux_nil, templateAux_nil]
  | succ N IH =>
    intro l f g hN hf hg
    cases l with
    | nil => rw [templateAux_nil, templateAux_nil]
    | cons c1 t =>
      cases t with
      | nil => rw [templateAux_single, templateAux_single]
      | cons c2 rest =>
        simp only [List.length_cons] at hN hf hg
        cases f with
        | zero => omega
        | succ f =>
          cases g with
          | zero => omega
          | succ g =>
            simp only [templateAux]
            split
            · cases hfc : findClose rest with
              | some p =>
                obtain ⟨cap, n⟩ := p
                simp only
                congr 1
                apply IH
                · rw [List.length_drop]; omega
                · rw [List.length_drop]; omega
                · rw [List.length_drop]; omega
              | none =>
                simp only
                congr 1
                apply IH <;> simp only [List.length_cons] <;> omega
            · congr 1
              apply IH <;> simp only [List.length_cons] <;> omega

theorem templateChars_eq_aux (params : JSVal) (f : Nat) (l : List Char)
    (h : l.length ≤ f) : templateAux params f l = templateChars params l :=
  templateAux_fuel params l.length l f l.length le_rfl h le_rfl

theorem templateChars_cons_ne (params : JSVal) (c : Char) (h : c ≠ '{') :
    ∀ l : List Char, templateChars params (c :: l) = c :: templateChars params l := by
  intro l
  cases l with
  | nil => rfl
  | cons d rest =>
    show templateAux params ((c :: d :: rest).length) (c :: d :: rest)
      = c :: templateAux params ((d :: rest).length) (d :: rest)
    simp only [List.length_cons, templateAux]
    rw [if_neg (fun hh => h hh.1)]

theorem templateChars_append_noBrace (params : JSVal) :
    ∀ pre l : List Char, (∀ c ∈ pre, c ≠ '{') →
    templateChars params (pre ++ l) = pre ++ templateChars params l := by
  intro pre
  induction pre with
  | nil => intro l _; simp
  | cons c pre' IH =>
    intro l h
    rw [List.cons_append,
      templateChars_cons_ne params c (h c (List.mem_cons_self c pre')),
      IH l (fun c' hm => h c' (List.mem_cons_of_mem c hm)), List.cons_append]

theorem findClose_append (cap : List Char) (rest : List Char)
    (h : ∀ c ∈ cap, c ≠ '}' ∧ isLineTerm c = false) :
    findClose (cap ++ '}' :: '}' :: rest) = some (cap, cap.length + 2) := by
  induction cap with
  | nil => simp [findClose]
  | cons c cap' IH =>
    have hc := h c (List.mem_cons_self c cap')
    have h' : ∀ c' ∈ cap', c' ≠ '}' ∧ isLineTerm c' = false :=
      fun c' hm => h c' (List.mem_cons_of_mem c hm)
    cases hx : cap' ++ '}' :: '}' :: rest with
    | nil => exact absurd hx (by simp)
    | cons d rest2 =>
      rw [List.cons_append, hx]
      simp only [findClose]
      rw [if_neg (fun hh => hc.1 hh.1), if_neg (by simp [hc.2]), ← hx, IH h']
      simp only [Option.map]
      congr 2

theorem string_data_eq {a b : String} (h : a.data = b.data) : a = b := by
  cases a
  cases b
  simp_all

theorem drop_close (cap rest : List Char) :
    (cap ++ '}' :: '}' :: rest).drop (cap.length + 2) = rest := by
  have h1 : ((cap ++ '}' :: '}' :: rest).drop cap.length).drop 2
      = (cap ++ '}' :: '}' :: rest).drop (cap.length + 2) := by
    rw [List.drop_drop]
  rw [← h1, List.drop_left]
  rfl

theorem templateChars_replace (params : JSVal) (pre cap rest : List Char)
    (hpre : ∀ c ∈ pre, c ≠ '{')
    (hcap : ∀ c ∈ cap, c ≠ '}' ∧ isLineTerm c = false) :
    templateChars params (pre ++ '{' :: '{' :: (cap ++ '}' :: '}' :: rest))
      = pre ++ (toJSString (deepReadObject params (String.mk cap) (.vStr ""))).data
          ++ templateChars params rest := by
  rw [templateChars_append_noBrace params pre _ hpre, List.append_assoc]
  congr 1
  show templateAux params (('{' :: '{' :: (cap ++ '}' :: '}' :: rest)).length) _ = _
  simp only [List.length_cons, templateAux]
  rw [if_pos (by simp), findClose_append cap rest hcap]
  simp only
  rw [drop_close cap rest]
  congr 1
  apply templateChars_eq_aux
  simp only [List.length_append, List.length_cons]
  omega

/-- Claim C4: every match of the default pattern is replaced by the deep path
read of the captured path (trimmed inside the reader) against `params`, with
default `''`, converted to string form; a path that is not found therefore
contributes the empty string (the placeholder literal never survives a
match); and the spec's concrete examples hold.  The shape hypotheses carve
out one generic match: a prefix containing no `\x7b`, and a capture that
contains no `\x7d` and no line terminator. -/
theorem claim_C4 (pre cap rest : String) (params : JSVal)
    (hpre : ∀ c ∈ pre.data, c ≠ '{')
    (hcap : ∀ c ∈ cap.data, c ≠ '}' ∧ isLineTerm c = false) :
    template (pre ++ "\x7b\x7b" ++ cap ++ "\x7d\x7d" ++ rest) params
      = pre ++ toJSString (deepReadObject params cap (.vStr ""))
        ++ template rest params
    ∧ (deepRead params cap = .vUndef →
        template (pre ++ "\x7b\x7b" ++ cap ++ "\x7d\x7d" ++ rest) params
          = pre ++ template rest params)
    ∧ template "Hello \x7b\x7b name \x7d\x7d" (.vObj [("name", .vStr "Tom")])
      = "Hello Tom"
    ∧ template "x\x7b\x7b missing \x7d\x7dy" (.vObj []) = "xy" := by
  have e1 : ("\x7b\x7b" : String).data = ['{', '{'] := rfl
  have e2 : ("\x7d\x7d" : String).data = ['}', '}'] := rfl
  have hd : (pre ++ "\x7b\x7b" ++ cap ++ "\x7d\x7d" ++ rest).data
      = pre.data ++ '{' :: '{' :: (cap.data ++ '}' :: '}' :: rest.data) := by
    simp [String.data_append, e1, e2, List.append_assoc]
  have main : template (pre ++ "\x7b\x7b" ++ cap ++ "\x7d\x7d" ++ rest) params
      = pre ++ toJSString (deepReadObject params cap (.vStr ""))
        ++ template rest params := by
    apply string_data_eq
    show templateChars params ((pre ++ "\x7b\x7b" ++ cap ++ "\x7d\x7d" ++ rest).data)
      = (pre ++ toJSString (deepReadObject params cap (.vStr ""))
          ++ template rest params).data
    rw [hd, templateChars_replace params pre.data cap.data rest.data hpre hcap]
    simp [String.data_append, template, List.append_assoc]
  refine ⟨main, ?_, rfl, rfl⟩
  intro h
  rw [main, deepReadObject_of_undef h]
  apply string_data_eq
  simp [String.data_append, toJSString]

/-- Witness for claim C4 at a concrete input: the placeholder in
`'Hej \x7b\x7b name \x7d\x7d!'` is replaced by the string form of the read
of `' name '` against the params. -/
theorem claim_C4_witness :
    template ("Hej " ++ "\x7b\x7b" ++ " name " ++ "\x7d\x7d" ++ "!")
      (.vObj [("name", .vStr "Tom")])
      = "Hej "
        ++ toJSString (deepReadObject (.vObj [("name", .vStr "Tom")]) " name "
            (.vStr ""))
        ++ template "!" (.vObj [("name", .vStr "Tom")]) :=
  (claim_C4 "Hej " " name " "!" (.vObj [("name", .vStr "Tom")]) (by decide)
    (by decide)).1

/-! Helper lemmas about property assignment and Object.assign. -/

theorem lookupKey_setKey (l : List (String × JSVal)) (k : String) (v : JSVal)
    (q : String) :
    lookupKey (setKey l k v) q = if k = q then some v else lookupKey l q := by
  induction l with
  | nil =>
    simp only [setKey, lookupKey]
  | cons kv rest IH =>
    obtain ⟨k0, v0⟩ := kv
    by_cases h : k0 = k
    · subst h
      by_cases h2 : k0 = q <;> simp [setKey, lookupKey, h2]
    · by_cases h2 : k0 = q
      · subst h2
        have hne : ¬(k = k0) := fun e => h e.symm
        simp [setKey, lookupKey, h, hne]
      · simp [setKey, lookupKey, h, h2, IH]

theorem mem_keys_of_lookupKey {l : List (String × JSVal)} {k : String}
    {v : JSVal} (h : lookupKey l k = some v) : k ∈ l.map Prod.fst := by
  induction l with
  | nil => simp [lookupKey] at h
  | cons kv rest IH =>
    obtain ⟨k0, v0⟩ := kv
    simp only [lookupKey] at h
    by_cases h2 : k0 = k
    · subst h2; simp
    · rw [if_neg h2] at h
      simp [IH h]

theorem lookupKey_objAssign (t src : List (String × JSVal))
    (hnd : (src.map Prod.fst).Nodup) (q : String) :
    lookupKey (objAssign t src) q
      = match lookupKey src q with
        | some v => some v
        | none => lookupKey t q := by
  induction src generalizing t with
  | nil => simp [objAssign, lookupKey]
  | cons kv rest IH =>
    obtain ⟨k0, v0⟩ := kv
    simp only [List.map_cons, List.nodup_cons] at hnd
    have hstep : objAssign t ((k0, v0) :: rest) = objAssign (setKey t k0 v0) rest :=
      rfl
    rw [hstep, IH (setKey t k0 v0) hnd.2]
    cases hr : lookupKey rest q with
    | some v =>
      have hq : q ∈ rest.map Prod.fst := mem_keys_of_lookupKey hr
      have hne : k0 ≠ q := fun e => hnd.1 (e ▸ hq)
      simp [lookupKey, hne, hr]
    | none =>
      rw [lookupKey_setKey]
      by_cases h2 : k0 = q <;> simp [lookupKey, h2, hr]

/-- Claim C3: `add(locale, table)` merges `table`'s own keys shallowly into
the existing table for that locale (a fresh empty table when absent): the
new entry for the locale is exactly `Object.assign(old, table)`; keys
present in `table` win, keys absent from `table` keep their old value;
other locales are untouched; nested objects are replaced wholesale; and the
spec's scenario holds: after `add('sw', \x7b hello: 'hej \x7b\x7b name
\x7d\x7d' \x7d)` and `locale('sw')`, `translate('hello', \x7b name: 'Tom'
\x7d)` is `'hej Tom'` while the pre-existing `color` key of the `sw` table
is retained. -/
theorem claim_C3 (st : I18nState) (lang : String)
    (table : List (String × JSVal)) (hnd : (table.map Prod.fst).Nodup) :
    getProp (.vObj (addAction st lang table).dict) lang
      = .vObj (objAssign (toFields (jsOr (getProp (.vObj st.dict) lang)
          (.vObj []))) table)
    ∧ (∀ k v, lookupKey table k = some v →
        lookupKey (objAssign (toFields (jsOr (getProp (.vObj st.dict) lang)
          (.vObj []))) table) k = some v)
    ∧ (∀ k, lookupKey table k = none →
        lookupKey (objAssign (toFields (jsOr (getProp (.vObj st.dict) lang)
          (.vObj []))) table) k
          = lookupKey (toFields (jsOr (getProp (.vObj st.dict) lang)
              (.vObj []))) k)
    ∧ (∀ l2, l2 ≠ lang →
        lookupKey (addAction st lang table).dict l2 = lookupKey st.dict l2)
    ∧ objAssign [("a", .vObj [("x", .vNum 1)])] [("a", .vObj [("y", .vNum 2)])]
      = [("a", .vObj [("y", .vNum 2)])]
    ∧ translateFn (fun _ _ => .vUndef)
        ((localeAction (addAction
          (I18nState.mk "en" [("sw", .vObj [("color", .vStr "röd")])]) "sw"
          [("hello", .vStr "hej \x7b\x7b name \x7d\x7d")]) (some "sw")).1)
        "hello" (.vObj [("name", .vStr "Tom")]) .vUndef = .vStr "hej Tom"
    ∧ lookupKey (toFields (getProp (.vObj (addAction
        (I18nState.mk "en" [("sw", .vObj [("color", .vStr "röd")])]) "sw"
        [("hello", .vStr "hej \x7b\x7b name \x7d\x7d")]).dict) "sw")) "color"
      = some (.vStr "röd") := by
  refine ⟨?_, ?_, ?_, ?_, rfl, rfl, rfl⟩
  · simp [addAction, getProp, lookupKey_setKey]
  · intro k v hk
    rw [lookupKey_objAssign _ table hnd k, hk]
  · intro k hk
    rw [lookupKey_objAssign _ table hnd k, hk]
  · intro l2 hl2
    have hne : ¬(lang = l2) := fun e => hl2 e.symm
    simp [addAction, lookupKey_setKey, hne]

/-- Witness for claim C3 at the spec's concrete scenario. -/
theorem claim_C3_witness :
    translateFn (fun _ _ => .vUndef)
      ((localeAction (addAction
        (I18nState.mk "en" [("sw", .vObj [("color", .vStr "röd")])]) "sw"
        [("hello", .vStr "hej \x7b\x7b name \x7d\x7d")]) (some "sw")).1)
      "hello" (.vObj [("name", .vStr "Tom")]) .vUndef = .vStr "hej Tom" :=
  (claim_C3 (I18nState.mk "en" [("sw", .vObj [("color", .vStr "röd")])]) "sw"
    [("hello", .vStr "hej \x7b\x7b name \x7d\x7d")] (by decide)).2.2.2.2.2.1

/-! Bridging lemmas between the source's `||` defaults and the `??` phrasing
of the claims: on the actual argument types (`string | undefined` defaults,
object-or-omitted params) the two coincide. -/

theorem jsOr_eq_nullish_str {d : JSVal}
    (hd : d = .vUndef ∨ ∃ s, d = .vStr s) :
    jsOr d (.vStr "") = jsNullish d (.vStr "") := by
  rcases hd with h | ⟨s, h⟩ <;> subst h
  · rfl
  · by_cases hs : s = ""
    · subst hs; rfl
    · simp [jsOr, jsNullish, jsTruthy, hs]

theorem jsOr_eq_nullish_obj {p : JSVal}
    (hp : p = .vUndef ∨ ∃ fs, p = .vObj fs) :
    jsOr p (.vObj []) = jsNullish p (.vObj []) := by
  rcases hp with h | ⟨fs, h⟩ <;> subst h <;> rfl

/-- Claim C1: `translate` resolves the key against
`dictionary[currentLocale]` with default `defaultValue ?? ''` and dispatches
on the resolved value: a callable is invoked with `params` and its result
returned directly (not interpolated); a string is interpolated against
`params` (the empty mapping when omitted); anything else is returned
unchanged, even when it is not a string.  `defaultValue` ranges over its
declared type `string | undefined`, `params` over
`Record<string, string> | undefined`. -/
theorem claim_C1 (funs : Nat → JSVal → JSVal) (st : I18nState) (key : String)
    (params defaultValue : JSVal)
    (hd : defaultValue = .vUndef ∨ ∃ s, defaultValue = .vStr s)
    (hp : params = .vUndef ∨ ∃ fs, params = .vObj fs) :
    (∀ n, deepReadObject (getProp (.vObj st.dict) st.currentLocale) key
        (jsNullish defaultValue (.vStr "")) = .vFunId n →
      translateFn funs st key params defaultValue = funs n params)
    ∧ (∀ s, deepReadObject (getProp (.vObj st.dict) st.currentLocale) key
        (jsNullish defaultValue (.vStr "")) = .vStr s →
      translateFn funs st key params defaultValue
        = .vStr (template s (jsNullish params (.vObj []))))
    ∧ ((∀ n, deepReadObject (getProp (.vObj st.dict) st.currentLocale) key
        (jsNullish defaultValue (.vStr "")) ≠ .vFunId n) →
      (∀ s, deepReadObject (getProp (.vObj st.dict) st.currentLocale) key
        (jsNullish defaultValue (.vStr "")) ≠ .vStr s) →
      translateFn funs st key params defaultValue
        = deepReadObject (getProp (.vObj st.dict) st.currentLocale) key
            (jsNullish defaultValue (.vStr ""))) := by
  have hbr : jsOr defaultValue (.vStr "") = jsNullish defaultValue (.vStr "") :=
    jsOr_eq_nullish_str hd
  have hbp : jsOr params (.vObj []) = jsNullish params (.vObj []) :=
    jsOr_eq_nullish_obj hp
  refine ⟨?_, ?_, ?_⟩
  · intro n h
    unfold translateFn
    rw [hbr, h]
  · intro s h
    unfold translateFn
    rw [hbr, h, hbp]
  · intro h1 h2
    unfold translateFn
    rw [hbr]
    cases hv : deepReadObject (getProp (.vObj st.dict) st.currentLocale) key
        (jsNullish defaultValue (.vStr "")) with
    | vFunId n => exact absurd hv (h1 n)
    | vStr s => exact absurd hv (h2 s)
    | vUndef => rfl
    | vNull => rfl
    | vBool b => rfl
    | vNum m => rfl
    | vObj fs => rfl

/-- Witness for claim C1 at concrete inputs: a callable leaf is invoked with
the params and its result returned as-is; a string leaf is interpolated. -/
theorem claim_C1_witness :
    translateFn (fun _ p => .vObj [("got", p)])
      (I18nState.mk "en" [("en", .vObj [("f", .vFunId 0)])]) "f"
      (.vObj [("name", .vStr "Tom")]) .vUndef
      = (fun _ p => JSVal.vObj [("got", p)]) 0 (.vObj [("name", .vStr "Tom")])
    ∧ translateFn (fun _ p => .vObj [("got", p)])
      (I18nState.mk "en" [("en", .vObj [("hello", .vStr "hi \x7b\x7b name \x7d\x7d")])])
      "hello" (.vObj [("name", .vStr "Tom")]) .vUndef = .vStr "hi Tom" := by
  constructor
  · exact (claim_C1 (fun _ p => .vObj [("got", p)])
      (I18nState.mk "en" [("en", .vObj [("f", .vFunId 0)])]) "f"
      (.vObj [("name", .vStr "Tom")]) .vUndef (Or.inl rfl)
      (Or.inr ⟨_, rfl⟩)).1 0 rfl
  · exact ((claim_C1 (fun _ p => .vObj [("got", p)])
      (I18nState.mk "en" [("en", .vObj [("hello", .vStr "hi \x7b\x7b name \x7d\x7d")])])
      "hello" (.vObj [("name", .vStr "Tom")]) .vUndef (Or.inl rfl)
      (Or.inr ⟨_, rfl⟩)).2.1 "hi \x7b\x7b name \x7d\x7d" rfl).trans rfl

/-! Helper lemmas: values drawn from a callable-free dictionary stay
callable-free through property access and the deep walk. -/

theorem noFunFields_lookup :
    ∀ {fs : List (String × JSVal)} {k : String} {v : JSVal},
    noFunFields fs = true → lookupKey fs k = some v → noFunVal v = true := by
  intro fs
  induction fs with
  | nil => intro k v _ h; simp [lookupKey] at h
  | cons kv rest IH =>
    obtain ⟨k0, v0⟩ := kv
    intro k v hnf hl
    simp only [noFunFields, Bool.and_eq_true] at hnf
    simp only [lookupKey] at hl
    by_cases h2 : k0 = k
    · rw [if_pos h2] at hl
      cases hl
      exact hnf.1
    · rw [if_neg h2] at hl
      exact IH hnf.2 hl

theorem noFunVal_getProp {a : JSVal} (h : noFunVal a = true) (k : String) :
    noFunVal (getProp a k) = true := by
  cases a with
  | vObj fs =>
    simp only [getProp]
    cases hl : lookupKey fs k with
    | some v => exact noFunFields_lookup (by simpa [noFunVal] using h) hl
    | none => rfl
  | vStr s =>
    simp only [getProp]
    split
    · rfl
    · split
      · split <;> rfl
      · rfl
  | vFunId n => exact absurd h (by simp [noFunVal])
  | vUndef => rfl
  | vNull => rfl
  | vBool b => rfl
  | vNum m => rfl

theorem noFunVal_stepRead {a : JSVal} (h : noFunVal a = true) (s : String) :
    noFunVal (stepRead a s) = true := by
  unfold stepRead
  split
  · exact noFunVal_getProp h s
  · rfl

theorem noFunVal_foldl : ∀ (l : List String) (a : JSVal), noFunVal a = true →
    noFunVal (List.foldl stepRead a l) = true
  | [], _, h => h
  | s :: rest, a, h =>
    noFunVal_foldl rest (stepRead a s) (noFunVal_stepRead h s)

/-- Claim C9 (implicit frame property): when every leaf of the dictionary is
a string or plain data (no callables) and the default is likewise
callable-free, `translate` leaves the store unchanged — the effectful
embedding returns the state it was given — and its result does not depend on
the function environment, so two calls with equal arguments in the same
state return equal results. -/
theorem claim_C9 (st : I18nState) (key : String) (params d : JSVal)
    (funsE : Nat → JSVal → I18nState → I18nState × JSVal)
    (funs funs2 : Nat → JSVal → JSVal)
    (h1 : noFunVal (.vObj st.dict) = true) (h2 : noFunVal d = true) :
    translateEff funsE st key params d = (st, translateFn funs st key params d)
    ∧ translateFn funs st key params d = translateFn funs2 st key params d := by
  have hdef : noFunVal (jsOr d (.vStr "")) = true := by
    unfold jsOr
    split
    · exact h2
    · rfl
  have htab : noFunVal (getProp (.vObj st.dict) st.currentLocale) = true :=
    noFunVal_getProp h1 st.currentLocale
  have hval : noFunVal (deepReadObject (getProp (.vObj st.dict) st.currentLocale)
      key (jsOr d (.vStr ""))) = true := by
    by_cases hu : deepRead (getProp (.vObj st.dict) st.currentLocale) key = .vUndef
    · rw [deepReadObject_of_undef hu]
      exact hdef
    · rw [deepReadObject_of_def hu]
      exact noFunVal_foldl _ _ htab
  cases hv : deepReadObject (getProp (.vObj st.dict) st.currentLocale) key
      (jsOr d (.vStr "")) with
  | vFunId n =>
    rw [hv] at hval
    exact absurd hval (by simp [noFunVal])
  | vUndef =>
    exact ⟨by unfold translateEff translateFn; rw [hv],
      by unfold translateFn; rw [hv]⟩
  | vNull =>
    exact ⟨by unfold translateEff translateFn; rw [hv],
      by unfold translateFn; rw [hv]⟩
  | vBool b =>
    exact ⟨by unfold translateEff translateFn; rw [hv],
      by unfold translateFn; rw [hv]⟩
  | vNum m =>
    exact ⟨by unfold translateEff translateFn; rw [hv],
      by unfold translateFn; rw [hv]⟩
  | vStr s =>
    exact ⟨by unfold translateEff translateFn; rw [hv],
      by unfold translateFn; rw [hv]⟩
  | vObj fs =>
    exact ⟨by unfold translateEff translateFn; rw [hv],
      by unfold translateFn; rw [hv]⟩

/-- Witness for claim C9 at a concrete input: on a callable-free dictionary
the effectful call returns the unchanged state together with the pure
result, and the result is independent of the function environment. -/
theorem claim_C9_witness :
    translateEff (fun _ _ _ => (I18nState.mk "hacked" [], .vStr "boom"))
      (I18nState.mk "en" [("en", .vObj [("hello", .vStr "hi \x7b\x7b name \x7d\x7d")])])
      "hello" (.vObj [("name", .vStr "Tom")]) .vUndef
      = (I18nState.mk "en" [("en", .vObj [("hello", .vStr "hi \x7b\x7b name \x7d\x7d")])],
          translateFn (fun _ _ => .vStr "x")
            (I18nState.mk "en" [("en", .vObj [("hello", .vStr "hi \x7b\x7b name \x7d\x7d")])])
            "hello" (.vObj [("name", .vStr "Tom")]) .vUndef) :=
  (claim_C9 (I18nState.mk "en" [("en", .vObj [("hello", .vStr "hi \x7b\x7b name \x7d\x7d")])])
    "hello" (.vObj [("name", .vStr "Tom")]) .vUndef
    (fun _ _ _ => (I18nState.mk "hacked" [], .vStr "boom"))
    (fun _ _ => .vStr "x") (fun _ _ => .vStr "y") (by decide) rfl).1
